/-
Verification of the Black-Scholes pricing model in
src/Delta_hedging/src/options/black_scholes.py.

The development embeds the source at three semantic levels, each faithful to
the Python code:

1. Exact-real level (`BlackScholes.d1`, `BlackScholes.price_european_call`, ...):
   the formulas of the source over ℝ, with the library functions `norm.cdf` and
   `norm.pdf` modelled as the mathematical standard normal CDF `Phi`
   (an integral of the density) and density `normalPdf`.

2. Traced level (`Traced`, `d1Traced`, `price_european_callTraced`, ...):
   the same values plus a log of the divisor of every division the source
   performs, in source order.  The source of `price_european_call` evaluates
   `d1 = self.d1()` and `d2 = self.d2()` BEFORE the `if self.T == 0` branch,
   so both divisions (each by `sigma * sqrt(T)`) are logged even when `T = 0`.

3. Extended-value level (`XR`, `d1X`, `gammaX`, `vegaX`, `d1Query`):
   numpy/IEEE semantics on the region `T ≥ 0` — division by zero and `log` of
   a non-positive argument produce the special values `pinf`, `ninf`, `nan`
   instead of raising, `norm.pdf(±inf) = 0`, `0 * inf = nan`, etc.  The one
   plain-Python division in the source, `self.S / self.K` in `d1`, raises
   `ZeroDivisionError` when `K = 0`; `d1Query` models that.
-/
import Mathlib

open MeasureTheory Set

/-- The standard normal probability density, `norm.pdf` of scipy:
`exp(-x^2/2) / sqrt(2*pi)`. -/
noncomputable def normalPdf (x : ℝ) : ℝ :=
  (Real.sqrt (2 * Real.pi))⁻¹ * Real.exp (-(x ^ 2) / 2)

/-- The standard normal cumulative distribution function, `norm.cdf` of scipy:
the integral of the density over `(-∞, x]`. -/
noncomputable def Phi (x : ℝ) : ℝ :=
  ∫ t in Iic x, normalPdf t

/-- The five fields stored by `BlackScholes.__init__`. -/
structure BlackScholes where
  S : ℝ
  K : ℝ
  T : ℝ
  r : ℝ
  sigma : ℝ

namespace BlackScholes

/-- Method `d1`:
`(np.log(S/K) + (r + 0.5*sigma**2)*T) / (sigma*np.sqrt(T))`. -/
noncomputable def d1 (m : BlackScholes) : ℝ :=
  (Real.log (m.S / m.K) + (m.r + 0.5 * m.sigma ^ 2) * m.T) /
    (m.sigma * Real.sqrt m.T)

/-- Method `d2`: `d1 - sigma*np.sqrt(T)`. -/
noncomputable def d2 (m : BlackScholes) : ℝ :=
  d1 m - m.sigma * Real.sqrt m.T

/-- Method `price_european_call`.  The source first evaluates `d1` and `d2`
(see the traced embedding for that), then returns `max(0, S-K)` when `T == 0`
and `S*norm.cdf(d1) - K*np.exp(-r*T)*norm.cdf(d2)` otherwise. -/
noncomputable def price_european_call (m : BlackScholes) : ℝ :=
  if m.T = 0 then max 0 (m.S - m.K)
  else m.S * Phi (d1 m) - m.K * Real.exp (-m.r * m.T) * Phi (d2 m)

/-- Method `price_european_put`: `max(0, K-S)` when `T == 0`, otherwise
`K*np.exp(-r*T)*norm.cdf(-d2) - S*norm.cdf(-d1)`. -/
noncomputable def price_european_put (m : BlackScholes) : ℝ :=
  if m.T = 0 then max 0 (m.K - m.S)
  else m.K * Real.exp (-m.r * m.T) * Phi (-d2 m) - m.S * Phi (-d1 m)

/-- Method `delta_european_call`: `norm.cdf(d1)`. -/
noncomputable def delta_european_call (m : BlackScholes) : ℝ :=
  Phi (d1 m)

/-- Method `delta_european_put`: `norm.cdf(d1) - 1`. -/
noncomputable def delta_european_put (m : BlackScholes) : ℝ :=
  Phi (d1 m) - 1

/-- Method `gamma`: `norm.pdf(d1) / (S*sigma*np.sqrt(T))`. -/
noncomputable def gamma (m : BlackScholes) : ℝ :=
  normalPdf (d1 m) / (m.S * m.sigma * Real.sqrt m.T)

/-- Method `theta_european_call`:
`(-S*sigma*norm.pdf(d1))/(2*np.sqrt(T)) - r*K*np.exp(-r*T)*norm.cdf(d2)`. -/
noncomputable def theta_european_call (m : BlackScholes) : ℝ :=
  (-m.S * m.sigma * normalPdf (d1 m)) / (2 * Real.sqrt m.T) -
    m.r * m.K * Real.exp (-m.r * m.T) * Phi (d2 m)

/-- Method `theta_european_put`:
`(-S*sigma*norm.pdf(d1))/(2*np.sqrt(T)) + r*K*np.exp(-r*T)*norm.cdf(-d2)`. -/
noncomputable def theta_european_put (m : BlackScholes) : ℝ :=
  (-m.S * m.sigma * normalPdf (d1 m)) / (2 * Real.sqrt m.T) +
    m.r * m.K * Real.exp (-m.r * m.T) * Phi (-d2 m)

/-- Method `vega`: `S*np.sqrt(T)*norm.pdf(d1)`. -/
noncomputable def vega (m : BlackScholes) : ℝ :=
  m.S * Real.sqrt m.T * normalPdf (d1 m)

/-- Method `rho_european_call`: `K*T*np.exp(-r*T)*norm.cdf(d2)`. -/
noncomputable def rho_european_call (m : BlackScholes) : ℝ :=
  m.K * m.T * Real.exp (-m.r * m.T) * Phi (d2 m)

/-- Method `rho_european_put`: `-K*T*np.exp(-r*T)*norm.cdf(-d2)`. -/
noncomputable def rho_european_put (m : BlackScholes) : ℝ :=
  -m.K * m.T * Real.exp (-m.r * m.T) * Phi (-d2 m)

end BlackScholes

/-- The density is strictly positive everywhere. -/
lemma normalPdf_pos (x : ℝ) : 0 < normalPdf x := by
  apply mul_pos
  · exact inv_pos.mpr (Real.sqrt_pos.mpr (by positivity))
  · exact Real.exp_pos _

/-- The density is an even function. -/
lemma normalPdf_neg (x : ℝ) : normalPdf (-x) = normalPdf x := by
  simp [normalPdf, neg_sq]

/-- The density is continuous. -/
lemma continuous_normalPdf : Continuous normalPdf := by
  unfold normalPdf
  fun_prop

/-- The density is integrable over the whole line. -/
lemma integrable_normalPdf : Integrable normalPdf := by
  have h : Integrable fun x : ℝ => Real.exp (-(2⁻¹ : ℝ) * x ^ 2) :=
    integrable_exp_neg_mul_sq (by norm_num)
  have h2 : normalPdf =
      fun x : ℝ => (Real.sqrt (2 * Real.pi))⁻¹ * Real.exp (-(2⁻¹ : ℝ) * x ^ 2) := by
    funext x
    unfold normalPdf
    ring_nf
  rw [h2]
  exact h.const_mul _

/-- The total mass of the density is `1`. -/
lemma integral_normalPdf : ∫ x : ℝ, normalPdf x = 1 := by
  have h2 : normalPdf =
      fun x : ℝ => (Real.sqrt (2 * Real.pi))⁻¹ * Real.exp (-(2⁻¹ : ℝ) * x ^ 2) := by
    funext x
    unfold normalPdf
    ring_nf
  rw [h2, integral_mul_left, integral_gaussian]
  rw [show Real.pi / (2⁻¹ : ℝ) = 2 * Real.pi by ring]
  exact inv_mul_cancel₀ (ne_of_gt (Real.sqrt_pos.mpr (by positivity)))

/-- Symmetry of the CDF: `Phi x + Phi (-x) = 1`. -/
lemma Phi_add_Phi_neg (x : ℝ) : Phi x + Phi (-x) = 1 := by
  have hneg : Phi (-x) = ∫ t in Ioi x, normalPdf t := by
    have h1 : (∫ t in Iic (-x), normalPdf t) = ∫ t in Iic (-x), normalPdf (-t) := by
      refine setIntegral_congr_fun measurableSet_Iic ?_
      intro t _
      exact (normalPdf_neg t).symm
    rw [Phi, h1, integral_comp_neg_Iic, neg_neg]
  rw [Phi, hneg]
  rw [intervalIntegral.integral_Iic_add_Ioi integrable_normalPdf.integrableOn
    integrable_normalPdf.integrableOn]
  exact integral_normalPdf

/-- Difference of CDF values as an interval integral. -/
lemma Phi_sub_Phi (a b : ℝ) : Phi b - Phi a = ∫ t in a..b, normalPdf t := by
  exact intervalIntegral.integral_Iic_sub_Iic integrable_normalPdf.integrableOn
    integrable_normalPdf.integrableOn

/-- The CDF is strictly monotone. -/
lemma Phi_strictMono : StrictMono Phi := by
  intro a b hab
  have h : 0 < Phi b - Phi a := by
    rw [Phi_sub_Phi]
    exact intervalIntegral.intervalIntegral_pos_of_pos
      (continuous_normalPdf.intervalIntegrable a b) normalPdf_pos hab
  linarith

/-- The CDF is nonnegative. -/
lemma Phi_nonneg (x : ℝ) : 0 ≤ Phi x := by
  refine setIntegral_nonneg measurableSet_Iic ?_
  intro t _
  exact (normalPdf_pos t).le

/-- The CDF takes values strictly between `0` and `1`. -/
lemma Phi_mem_Ioo (x : ℝ) : 0 < Phi x ∧ Phi x < 1 := by
  constructor
  · calc (0 : ℝ) ≤ Phi (x - 1) := Phi_nonneg _
    _ < Phi x := Phi_strictMono (by linarith)
  · have h1 : Phi x < Phi (x + 1) := Phi_strictMono (by linarith)
    have h2 : 0 ≤ Phi (-(x + 1)) := Phi_nonneg _
    have h3 := Phi_add_Phi_neg (x + 1)
    linarith

/-- The CDF has the density as derivative. -/
lemma hasDerivAt_Phi (x : ℝ) : HasDerivAt Phi (normalPdf x) x := by
  have key : ∀ y : ℝ, Phi y = Phi 0 + ∫ t in (0 : ℝ)..y, normalPdf t := by
    intro y
    have := Phi_sub_Phi 0 y
    linarith
  have h : HasDerivAt (fun u => ∫ t in (0 : ℝ)..u, normalPdf t) (normalPdf x) x :=
    (continuous_normalPdf.integral_hasStrictDerivAt 0 x).hasDerivAt
  have h2 : HasDerivAt (fun u => Phi 0 + ∫ t in (0 : ℝ)..u, normalPdf t)
      (normalPdf x) x := h.const_add _
  exact h2.congr_of_eventuallyEq (Filter.Eventually.of_forall fun y => key y)

/-
Level 2: the traced embedding.  A `Traced` value carries the list of divisors
of every division the source performs while computing the value, in source
order, alongside the value itself (whose real part agrees with level 1).
-/

/-- A computed value together with the divisor of every division performed. -/
structure Traced (α : Type) where
  divisors : List ℝ
  val : α

namespace BlackScholes

/-- Traced `d1`: one division, by `sigma * np.sqrt(T)`. -/
noncomputable def d1Traced (m : BlackScholes) : Traced ℝ :=
  ⟨[m.sigma * Real.sqrt m.T], d1 m⟩

/-- Traced `d2`: calls `BlackScholes.d1(self)` (logging its division) and
performs no division of its own. -/
noncomputable def d2Traced (m : BlackScholes) : Traced ℝ :=
  ⟨(d1Traced m).divisors, (d1Traced m).val - m.sigma * Real.sqrt m.T⟩

/-- Traced `price_european_call`: the source evaluates `d1 = self.d1()` and
`d2 = self.d2()` first — both divisions are logged — and only then tests
`self.T == 0`. -/
noncomputable def price_european_callTraced (m : BlackScholes) : Traced ℝ :=
  ⟨(d1Traced m).divisors ++ (d2Traced m).divisors,
    if m.T = 0 then max 0 (m.S - m.K)
    else m.S * Phi (d1Traced m).val -
      m.K * Real.exp (-m.r * m.T) * Phi (d2Traced m).val⟩

/-- Traced `price_european_put`: same shape as the traced call. -/
noncomputable def price_european_putTraced (m : BlackScholes) : Traced ℝ :=
  ⟨(d1Traced m).divisors ++ (d2Traced m).divisors,
    if m.T = 0 then max 0 (m.K - m.S)
    else m.K * Real.exp (-m.r * m.T) * Phi (-(d2Traced m).val) -
      m.S * Phi (-(d1Traced m).val)⟩

end BlackScholes

/-- Coherence of the levels: the traced prices compute the level-1 values. -/
lemma priceTraced_val (m : BlackScholes) :
    (m.price_european_callTraced).val = m.price_european_call ∧
    (m.price_european_putTraced).val = m.price_european_put := by
  constructor <;>
    simp [BlackScholes.price_european_callTraced,
      BlackScholes.price_european_putTraced, BlackScholes.price_european_call,
      BlackScholes.price_european_put, BlackScholes.d1Traced,
      BlackScholes.d2Traced, BlackScholes.d2]

/-
Level 3: the extended-value embedding.  `XR` is ℝ together with the IEEE
special values `pinf`, `ninf` and `nan`, with the numpy semantics of the
operations the source performs: division by zero yields a signed infinity or
`nan`, `np.log` of a non-positive argument yields `ninf` or `nan` (with a
warning, not an exception), `norm.pdf(±inf) = 0`, `norm.pdf(nan) = nan`,
and `0 * (±inf) = nan`, `0 * nan = nan` for scalar multiplication.
-/

/-- A float value: a finite real, a signed infinity, or `nan`. -/
inductive XR : Type
  | real (x : ℝ)
  | pinf
  | ninf
  | nan

namespace XR

/-- A float is finite when it carries a real value. -/
def isFinite : XR → Prop
  | real _ => True
  | _ => False

/-- Model of `np.log` on a real argument. -/
noncomputable def xlog (x : ℝ) : XR :=
  if 0 < x then real (Real.log x) else if x = 0 then ninf else nan

/-- Adding a real constant to a float (infinities absorb). -/
noncomputable def xadd : XR → ℝ → XR
  | real x, c => real (x + c)
  | pinf, _ => pinf
  | ninf, _ => ninf
  | nan, _ => nan

/-- Dividing a float by a real constant, IEEE style: division of a nonzero
finite numerator by zero gives a signed infinity, `0/0` gives `nan`. -/
noncomputable def xdivr : XR → ℝ → XR
  | real x, c =>
      if c = 0 then (if 0 < x then pinf else if x < 0 then ninf else nan)
      else real (x / c)
  | pinf, c => if 0 ≤ c then pinf else ninf
  | ninf, c => if 0 ≤ c then ninf else pinf
  | nan, _ => nan

/-- Multiplying a float by a real constant: `0 * (±inf)` and anything with
`nan` is `nan`. -/
noncomputable def xsmul (c : ℝ) : XR → XR
  | real x => real (c * x)
  | pinf => if 0 < c then pinf else if c < 0 then ninf else nan
  | ninf => if 0 < c then ninf else if c < 0 then pinf else nan
  | nan => nan

/-- Model of `norm.pdf` on a float: scipy returns `0.0` at `±inf` and `nan`
at `nan`. -/
noncomputable def xpdf : XR → XR
  | real x => real (normalPdf x)
  | pinf => real 0
  | ninf => real 0
  | nan => nan

end XR

namespace BlackScholes

/-- Method `d1` under extended-value semantics (for `T ≥ 0`, where
`np.sqrt(T)` and the products by it stay real):
`(np.log(S/K) + (r + 0.5*sigma**2)*T) / (sigma*np.sqrt(T))`. -/
noncomputable def d1X (m : BlackScholes) : XR :=
  XR.xdivr (XR.xadd (XR.xlog (m.S / m.K)) ((m.r + 0.5 * m.sigma ^ 2) * m.T))
    (m.sigma * Real.sqrt m.T)

/-- Method `gamma` under extended-value semantics:
`norm.pdf(d1) / (S*sigma*np.sqrt(T))`. -/
noncomputable def gammaX (m : BlackScholes) : XR :=
  XR.xdivr (XR.xpdf (d1X m)) (m.S * m.sigma * Real.sqrt m.T)

/-- Method `vega` under extended-value semantics:
`S*np.sqrt(T)*norm.pdf(d1)`. -/
noncomputable def vegaX (m : BlackScholes) : XR :=
  XR.xsmul (m.S * Real.sqrt m.T) (XR.xpdf (d1X m))

end BlackScholes

/-- Outcome of running a method as Python runs it: a returned value, or an
uncaught `ZeroDivisionError`. -/
inductive PyResult (α : Type) : Type
  | ok (a : α)
  | zeroDivError

/-- Constructor `BlackScholes.__init__`: stores the five arguments unchecked
(the source performs no validation and cannot fail). -/
def mkPricingModel (S K T r sigma : ℝ) : BlackScholes :=
  ⟨S, K, T, r, sigma⟩

/-- Running method `d1`: the plain-Python division `self.S / self.K` raises
`ZeroDivisionError` when `K = 0`; every other operation (numpy log, numpy
division by `sigma*np.sqrt(T)`) returns a float — possibly `nan` or `±inf`
with a warning — and never raises. -/
noncomputable def d1Query (m : BlackScholes) : PyResult XR :=
  if m.K = 0 then PyResult.zeroDivError else PyResult.ok m.d1X

/-- The parameter sets §3 of the spec rules out of domain. -/
def outOfDomain (S K T _r sigma : ℝ) : Prop :=
  S ≤ 0 ∨ K ≤ 0 ∨ T < 0 ∨ (sigma ≤ 0 ∧ 0 < T)

/-
State-passing forms of the twelve query methods.  Each Python method takes
`self`, reads the five fields, and contains no assignment to any `self.`
attribute, so the translation returns the computed value together with the
receiver it leaves behind.
-/

namespace BlackScholes

/-- State-passing `d1`: reads fields, assigns nothing. -/
noncomputable def d1State (m : BlackScholes) : ℝ × BlackScholes := (d1 m, m)

/-- State-passing `d2`: reads fields, assigns nothing. -/
noncomputable def d2State (m : BlackScholes) : ℝ × BlackScholes := (d2 m, m)

/-- State-passing `price_european_call`: reads fields, assigns nothing. -/
noncomputable def price_european_callState (m : BlackScholes) : ℝ × BlackScholes :=
  (price_european_call m, m)

/-- State-passing `price_european_put`: reads fields, assigns nothing. -/
noncomputable def price_european_putState (m : BlackScholes) : ℝ × BlackScholes :=
  (price_european_put m, m)

/-- State-passing `delta_european_call`: reads fields, assigns nothing. -/
noncomputable def delta_european_callState (m : BlackScholes) : ℝ × BlackScholes :=
  (delta_european_call m, m)

/-- State-passing `delta_european_put`: reads fields, assigns nothing. -/
noncomputable def delta_european_putState (m : BlackScholes) : ℝ × BlackScholes :=
  (delta_european_put m, m)

/-- State-passing `gamma`: reads fields, assigns nothing. -/
noncomputable def gammaState (m : BlackScholes) : ℝ × BlackScholes := (gamma m, m)

/-- State-passing `theta_european_call`: reads fields, assigns nothing. -/
noncomputable def theta_european_callState (m : BlackScholes) : ℝ × BlackScholes :=
  (theta_european_call m, m)

/-- State-passing `theta_european_put`: reads fields, assigns nothing. -/
noncomputable def theta_european_putState (m : BlackScholes) : ℝ × BlackScholes :=
  (theta_european_put m, m)

/-- State-passing `vega`: reads fields, assigns nothing. -/
noncomputable def vegaState (m : BlackScholes) : ℝ × BlackScholes := (vega m, m)

/-- State-passing `rho_european_call`: reads fields, assigns nothing. -/
noncomputable def rho_european_callState (m : BlackScholes) : ℝ × BlackScholes :=
  (rho_european_call m, m)

/-- State-passing `rho_european_put`: reads fields, assigns nothing. -/
noncomputable def rho_european_putState (m : BlackScholes) : ℝ × BlackScholes :=
  (rho_european_put m, m)

end BlackScholes

/-- Put-call parity of the two price functions, unconditionally: in the
`T = 0` branch both sides reduce to `S - K`, otherwise the CDF symmetry
collapses the four CDF terms. -/
lemma price_parity (m : BlackScholes) :
    m.price_european_call - m.price_european_put =
      m.S - m.K * Real.exp (-m.r * m.T) := by
  by_cases h : m.T = 0
  · rw [BlackScholes.price_european_call, BlackScholes.price_european_put,
      if_pos h, if_pos h, h]
    rcases le_total m.S m.K with hle | hle
    · rw [max_eq_left (by linarith), max_eq_right (by linarith)]
      simp
    · rw [max_eq_right (by linarith), max_eq_left (by linarith)]
      simp
  · have e1 : Phi (-m.d1) = 1 - Phi m.d1 := by linarith [Phi_add_Phi_neg m.d1]
    have e2 : Phi (-m.d2) = 1 - Phi m.d2 := by linarith [Phi_add_Phi_neg m.d2]
    rw [BlackScholes.price_european_call, BlackScholes.price_european_put,
      if_neg h, if_neg h, e1, e2]
    ring

/-- C1: for every model with `S > 0`, `K > 0`, `T > 0` and `sigma > 0`,
`price_european_call` returns `S*Phi(d1) - K*exp(-r*T)*Phi(d2)` and
`price_european_put` returns `K*exp(-r*T)*Phi(-d2) - S*Phi(-d1)`, where `d1`
and `d2` are the model's `d1()` and `d2()` values and `Phi` is the standard
normal CDF. -/
theorem claim_C1_price_formulas (m : BlackScholes) (hS : 0 < m.S) (hK : 0 < m.K)
    (hT : 0 < m.T) (hsigma : 0 < m.sigma) :
    m.price_european_call =
      m.S * Phi m.d1 - m.K * Real.exp (-m.r * m.T) * Phi m.d2 ∧
    m.price_european_put =
      m.K * Real.exp (-m.r * m.T) * Phi (-m.d2) - m.S * Phi (-m.d1) := by
  constructor
  · rw [BlackScholes.price_european_call, if_neg hT.ne']
  · rw [BlackScholes.price_european_put, if_neg hT.ne']

/-- Witness for C1 at `S=100, K=100, T=1, r=0.05, sigma=0.2`. -/
theorem claim_C1_price_formulas_w :
    (⟨100, 100, 1, 0.05, 0.2⟩ : BlackScholes).price_european_call =
      100 * Phi (⟨100, 100, 1, 0.05, 0.2⟩ : BlackScholes).d1 -
        100 * Real.exp (-(0.05) * 1) *
          Phi (⟨100, 100, 1, 0.05, 0.2⟩ : BlackScholes).d2 ∧
    (⟨100, 100, 1, 0.05, 0.2⟩ : BlackScholes).price_european_put =
      100 * Real.exp (-(0.05) * 1) *
          Phi (-(⟨100, 100, 1, 0.05, 0.2⟩ : BlackScholes).d2) -
        100 * Phi (-(⟨100, 100, 1, 0.05, 0.2⟩ : BlackScholes).d1) := by
  have h := claim_C1_price_formulas ⟨100, 100, 1, 0.05, 0.2⟩
    (by norm_num) (by norm_num) (by norm_num) (by norm_num)
  simpa using h

/-- C2: for every model with valid parameters (`S > 0`, `K > 0`, `T ≥ 0`, and
`sigma > 0` when `T > 0`), `price_european_call - price_european_put` equals
`S - K*exp(-r*T)` (put-call parity on price), over exact real arithmetic. -/
theorem claim_C2_put_call_parity (m : BlackScholes) (hS : 0 < m.S) (hK : 0 < m.K)
    (hT : 0 ≤ m.T) (hsigma : 0 < m.T → 0 < m.sigma) :
    m.price_european_call - m.price_european_put =
      m.S - m.K * Real.exp (-m.r * m.T) :=
  price_parity m

/-- Witness for C2 at `S=100, K=100, T=1, r=0.05, sigma=0.2`. -/
theorem claim_C2_put_call_parity_w :
    (⟨100, 100, 1, 0.05, 0.2⟩ : BlackScholes).price_european_call -
      (⟨100, 100, 1, 0.05, 0.2⟩ : BlackScholes).price_european_put =
      100 - 100 * Real.exp (-(0.05) * 1) := by
  have h := claim_C2_put_call_parity ⟨100, 100, 1, 0.05, 0.2⟩
    (by norm_num) (by norm_num) (by norm_num) (fun _ => by norm_num)
  simpa using h

/-- C3: for every model with `T = 0` (and `S > 0`, `K > 0`),
`price_european_call` returns `max(0, S-K)` and `price_european_put` returns
`max(0, K-S)`; the witness instantiates `S = K = 100`, where both are `0`. -/
theorem claim_C3_expiry_intrinsic (m : BlackScholes) (hS : 0 < m.S)
    (hK : 0 < m.K) (hT : m.T = 0) :
    m.price_european_call = max 0 (m.S - m.K) ∧
    m.price_european_put = max 0 (m.K - m.S) := by
  exact ⟨by rw [BlackScholes.price_european_call, if_pos hT],
    by rw [BlackScholes.price_european_put, if_pos hT]⟩

/-- Witness for C3: at `S=100, K=100, T=0` both prices are `0`. -/
theorem claim_C3_expiry_intrinsic_w :
    (⟨100, 100, 0, 0.05, 0.2⟩ : BlackScholes).price_european_call = 0 ∧
    (⟨100, 100, 0, 0.05, 0.2⟩ : BlackScholes).price_european_put = 0 := by
  have h := claim_C3_expiry_intrinsic ⟨100, 100, 0, 0.05, 0.2⟩
    (by norm_num) (by norm_num) rfl
  simpa using h

/-- C5: for every model with valid parameters and `T > 0`,
`delta_european_call - delta_european_put = 1` exactly, and
`delta_european_put` lies in the open interval `(-1, 0)`. -/
theorem claim_C5_delta_parity_and_range (m : BlackScholes) (hS : 0 < m.S)
    (hK : 0 < m.K) (hT : 0 < m.T) (hsigma : 0 < m.sigma) :
    m.delta_european_call - m.delta_european_put = 1 ∧
    -1 < m.delta_european_put ∧ m.delta_european_put < 0 := by
  obtain ⟨h0, h1⟩ := Phi_mem_Ioo m.d1
  refine ⟨?_, ?_, ?_⟩
  · rw [BlackScholes.delta_european_call, BlackScholes.delta_european_put]
    ring
  · rw [BlackScholes.delta_european_put]
    linarith
  · rw [BlackScholes.delta_european_put]
    linarith

/-- Witness for C5 at `S=100, K=100, T=1, r=0.05, sigma=0.2`. -/
theorem claim_C5_delta_parity_and_range_w :
    (⟨100, 100, 1, 0.05, 0.2⟩ : BlackScholes).delta_european_call -
      (⟨100, 100, 1, 0.05, 0.2⟩ : BlackScholes).delta_european_put = 1 ∧
    -1 < (⟨100, 100, 1, 0.05, 0.2⟩ : BlackScholes).delta_european_put ∧
      (⟨100, 100, 1, 0.05, 0.2⟩ : BlackScholes).delta_european_put < 0 := by
  exact claim_C5_delta_parity_and_range ⟨100, 100, 1, 0.05, 0.2⟩
    (by norm_num) (by norm_num) (by norm_num) (by norm_num)

/-- C10: for every model with `S > 0`, `K > 0`, `T > 0` and `sigma > 0`,
`theta_european_call - theta_european_put = -(r*K*exp(-r*T))` exactly: the
shared `-S*sigma*pdf(d1)/(2*sqrt(T))` term cancels and
`Phi(d2) + Phi(-d2) = 1` collapses the rest. -/
theorem claim_C10_theta_parity (m : BlackScholes) (hS : 0 < m.S) (hK : 0 < m.K)
    (hT : 0 < m.T) (hsigma : 0 < m.sigma) :
    m.theta_european_call - m.theta_european_put =
      -(m.r * m.K * Real.exp (-m.r * m.T)) := by
  have e2 : Phi (-m.d2) = 1 - Phi m.d2 := by linarith [Phi_add_Phi_neg m.d2]
  rw [BlackScholes.theta_european_call, BlackScholes.theta_european_put, e2]
  ring

/-- Witness for C10 at `S=100, K=100, T=1, r=0.05, sigma=0.2`. -/
theorem claim_C10_theta_parity_w :
    (⟨100, 100, 1, 0.05, 0.2⟩ : BlackScholes).theta_european_call -
      (⟨100, 100, 1, 0.05, 0.2⟩ : BlackScholes).theta_european_put =
      -(0.05 * 100 * Real.exp (-(0.05) * 1)) := by
  have h := claim_C10_theta_parity ⟨100, 100, 1, 0.05, 0.2⟩
    (by norm_num) (by norm_num) (by norm_num) (by norm_num)
  simpa using h

/-- C9: each of the twelve query operations leaves the stored state exactly
as it was, and running the same query again on the post-state returns the
same value. -/
theorem claim_C9_queries_pure (m : BlackScholes) :
    ((m.d1State).2 = m ∧ (BlackScholes.d1State (m.d1State).2).1 = (m.d1State).1) ∧
    ((m.d2State).2 = m ∧ (BlackScholes.d2State (m.d2State).2).1 = (m.d2State).1) ∧
    ((m.price_european_callState).2 = m ∧
      (BlackScholes.price_european_callState (m.price_european_callState).2).1 =
        (m.price_european_callState).1) ∧
    ((m.price_european_putState).2 = m ∧
      (BlackScholes.price_european_putState (m.price_european_putState).2).1 =
        (m.price_european_putState).1) ∧
    ((m.delta_european_callState).2 = m ∧
      (BlackScholes.delta_european_callState (m.delta_european_callState).2).1 =
        (m.delta_european_callState).1) ∧
    ((m.delta_european_putState).2 = m ∧
      (BlackScholes.delta_european_putState (m.delta_european_putState).2).1 =
        (m.delta_european_putState).1) ∧
    ((m.gammaState).2 = m ∧
      (BlackScholes.gammaState (m.gammaState).2).1 = (m.gammaState).1) ∧
    ((m.theta_european_callState).2 = m ∧
      (BlackScholes.theta_european_callState (m.theta_european_callState).2).1 =
        (m.theta_european_callState).1) ∧
    ((m.theta_european_putState).2 = m ∧
      (BlackScholes.theta_european_putState (m.theta_european_putState).2).1 =
        (m.theta_european_putState).1) ∧
    ((m.vegaState).2 = m ∧
      (BlackScholes.vegaState (m.vegaState).2).1 = (m.vegaState).1) ∧
    ((m.rho_european_callState).2 = m ∧
      (BlackScholes.rho_european_callState (m.rho_european_callState).2).1 =
        (m.rho_european_callState).1) ∧
    ((m.rho_european_putState).2 = m ∧
      (BlackScholes.rho_european_putState (m.rho_european_putState).2).1 =
        (m.rho_european_putState).1) :=
  ⟨⟨rfl, rfl⟩, ⟨rfl, rfl⟩, ⟨rfl, rfl⟩, ⟨rfl, rfl⟩, ⟨rfl, rfl⟩, ⟨rfl, rfl⟩,
    ⟨rfl, rfl⟩, ⟨rfl, rfl⟩, ⟨rfl, rfl⟩, ⟨rfl, rfl⟩, ⟨rfl, rfl⟩, ⟨rfl, rfl⟩⟩

/-- Value of `d1` under extended-value semantics at expiry: with `T = 0` the
divisor `sigma*sqrt(T)` is `0`, so `d1` is `+inf`, `-inf` or `nan` according
to the sign of `log(S/K)`. -/
lemma d1X_at_expiry (m : BlackScholes) (hT : m.T = 0) (hS : 0 < m.S)
    (hK : 0 < m.K) :
    m.d1X = (if m.K < m.S then XR.pinf
      else if m.S < m.K then XR.ninf else XR.nan) := by
  have hpos : 0 < m.S / m.K := div_pos hS hK
  have hstep : m.d1X = XR.xdivr (XR.real (Real.log (m.S / m.K))) 0 := by
    rw [BlackScholes.d1X, XR.xlog, if_pos hpos, hT]
    simp only [Real.sqrt_zero, mul_zero, XR.xadd, add_zero]
  rw [hstep]
  simp only [XR.xdivr, if_true]
  rcases lt_trichotomy m.S m.K with hlt | heq | hgt
  · have hlog : Real.log (m.S / m.K) < 0 :=
      Real.log_neg hpos ((div_lt_one hK).mpr hlt)
    rw [if_neg (by linarith), if_pos hlog, if_neg (by linarith), if_pos hlt]
  · have hone : m.S / m.K = 1 := div_eq_one_iff_eq hK.ne' |>.mpr heq
    rw [hone, Real.log_one]
    simp [heq]
  · have hlog : 0 < Real.log (m.S / m.K) :=
      Real.log_pos ((one_lt_div hK).mpr hgt)
    rw [if_pos hlog, if_pos hgt]

/-- C6 as stated is false: at `S=110, K=100, T=0, r=0.05, sigma=0.2` the
division by `sigma*sqrt(T) = 0` inside `d1` makes `d1 = +inf`, but
`norm.pdf(+inf) = 0`, so `vega = S*sqrt(T)*pdf(d1) = 110*0*0 = 0.0`
— a finite, defined value, not a non-finite result. -/
theorem claim_C6_counterexample :
    (⟨110, 100, 0, 0.05, 0.2⟩ : BlackScholes).T = 0 ∧
    (⟨110, 100, 0, 0.05, 0.2⟩ : BlackScholes).vegaX = XR.real 0 ∧
    XR.isFinite (⟨110, 100, 0, 0.05, 0.2⟩ : BlackScholes).vegaX := by
  have hd1 : (⟨110, 100, 0, 0.05, 0.2⟩ : BlackScholes).d1X = XR.pinf := by
    rw [d1X_at_expiry ⟨110, 100, 0, 0.05, 0.2⟩ rfl (by norm_num) (by norm_num)]
    norm_num
  refine ⟨rfl, ?_, ?_⟩ <;>
    simp [BlackScholes.vegaX, hd1, XR.xpdf, XR.xsmul, XR.isFinite]

/-- C6 amended: at `T = 0` (with `S, K, sigma > 0`) the Greeks are indeed
unguarded — `d1` hits the division by `sigma*sqrt(T) = 0` and is non-finite —
and `gamma` always yields `nan`; but `vega` yields `nan` only when `S = K`,
and the finite value `0.0` when `S ≠ K`. -/
theorem claim_C6_amended (m : BlackScholes) (hT : m.T = 0) (hS : 0 < m.S)
    (hK : 0 < m.K) (hsigma : 0 < m.sigma) :
    (m.d1X = XR.pinf ∨ m.d1X = XR.ninf ∨ m.d1X = XR.nan) ∧
    m.gammaX = XR.nan ∧
    m.vegaX = (if m.S = m.K then XR.nan else XR.real 0) := by
  have hd1 := d1X_at_expiry m hT hS hK
  rcases lt_trichotomy m.S m.K with hlt | heq | hgt
  · rw [if_neg (by linarith), if_pos hlt] at hd1
    refine ⟨Or.inr (Or.inl hd1), ?_, ?_⟩ <;>
      simp [BlackScholes.gammaX, BlackScholes.vegaX, hd1, hT, XR.xpdf,
        XR.xdivr, XR.xsmul, hlt.ne]
  · rw [if_neg (by linarith), if_neg (by linarith)] at hd1
    refine ⟨Or.inr (Or.inr hd1), ?_, ?_⟩ <;>
      simp [BlackScholes.gammaX, BlackScholes.vegaX, hd1, hT, XR.xpdf,
        XR.xdivr, XR.xsmul, heq]
  · rw [if_pos hgt] at hd1
    refine ⟨Or.inl hd1, ?_, ?_⟩ <;>
      simp [BlackScholes.gammaX, BlackScholes.vegaX, hd1, hT, XR.xpdf,
        XR.xdivr, XR.xsmul, hgt.ne']

/-- Witness for the amended C6 at `S=100, K=100, T=0, r=0.05, sigma=0.2`:
`gamma` and `vega` both come out `nan`. -/
theorem claim_C6_amended_w :
    (⟨100, 100, 0, 0.05, 0.2⟩ : BlackScholes).gammaX = XR.nan ∧
    (⟨100, 100, 0, 0.05, 0.2⟩ : BlackScholes).vegaX = XR.nan := by
  have h := claim_C6_amended ⟨100, 100, 0, 0.05, 0.2⟩ rfl
    (by norm_num) (by norm_num) (by norm_num)
  refine ⟨h.2.1, ?_⟩
  have hv := h.2.2
  simpa using hv

/-- C4 as stated is false: at `S=100, K=100, T=0, r=0.05, sigma=0.2` the
source of both price functions evaluates `d1 = self.d1()` and
`d2 = self.d2()` before testing `self.T == 0`, so a division by
`sigma*sqrt(T) = 0` does occur: the divisor log of the traced computation
contains `0`. -/
theorem claim_C4_counterexample :
    (⟨100, 100, 0, 0.05, 0.2⟩ : BlackScholes).T = 0 ∧
    (0 : ℝ) ∈
      ((⟨100, 100, 0, 0.05, 0.2⟩ : BlackScholes).price_european_callTraced).divisors ∧
    (0 : ℝ) ∈
      ((⟨100, 100, 0, 0.05, 0.2⟩ : BlackScholes).price_european_putTraced).divisors := by
  refine ⟨rfl, ?_, ?_⟩ <;>
    simp [BlackScholes.price_european_callTraced,
      BlackScholes.price_european_putTraced, BlackScholes.d1Traced,
      BlackScholes.d2Traced, Real.sqrt_zero]

/-- C4 amended: at `T = 0` both price functions do evaluate `d1` and `d2`
first — each performing the division by `sigma*sqrt(T) = 0` — but the branch
then discards them, and the returned price is exactly the intrinsic value. -/
theorem claim_C4_amended (m : BlackScholes) (hT : m.T = 0) :
    (0 : ℝ) ∈ (m.price_european_callTraced).divisors ∧
    (m.price_european_callTraced).val = max 0 (m.S - m.K) ∧
    (0 : ℝ) ∈ (m.price_european_putTraced).divisors ∧
    (m.price_european_putTraced).val = max 0 (m.K - m.S) := by
  refine ⟨?_, ?_, ?_, ?_⟩ <;>
    simp [BlackScholes.price_european_callTraced,
      BlackScholes.price_european_putTraced, BlackScholes.d1Traced,
      BlackScholes.d2Traced, hT, Real.sqrt_zero]

/-- Witness for the amended C4 at `S=100, K=100, T=0, r=0.05, sigma=0.2`. -/
theorem claim_C4_amended_w :
    (0 : ℝ) ∈
      ((⟨100, 100, 0, 0.05, 0.2⟩ : BlackScholes).price_european_callTraced).divisors ∧
    ((⟨100, 100, 0, 0.05, 0.2⟩ : BlackScholes).price_european_callTraced).val = 0 ∧
    (0 : ℝ) ∈
      ((⟨100, 100, 0, 0.05, 0.2⟩ : BlackScholes).price_european_putTraced).divisors ∧
    ((⟨100, 100, 0, 0.05, 0.2⟩ : BlackScholes).price_european_putTraced).val = 0 := by
  have h := claim_C4_amended ⟨100, 100, 0, 0.05, 0.2⟩ rfl
  refine ⟨h.1, ?_, h.2.2.1, ?_⟩
  · rw [h.2.1]
    norm_num
  · rw [h.2.2.2]
    norm_num

/-- C7 as stated is false: at the out-of-domain input `spot = -1` (with
`K=100, T=1, r=0.05, sigma=0.2`) construction succeeds — `__init__` stores
the arguments unchecked — and the first query returns the value `nan`
(numpy warns on `log` of a negative number but raises nothing). -/
theorem claim_C7_counterexample :
    outOfDomain (-1) 100 1 0.05 0.2 ∧
    mkPricingModel (-1) 100 1 0.05 0.2 = ⟨-1, 100, 1, 0.05, 0.2⟩ ∧
    d1Query (mkPricingModel (-1) 100 1 0.05 0.2) = PyResult.ok XR.nan := by
  refine ⟨Or.inl (by norm_num), rfl, ?_⟩
  have hlog : XR.xlog ((-1 : ℝ) / 100) = XR.nan := by
    rw [XR.xlog, if_neg (by norm_num), if_neg (by norm_num)]
  simp [d1Query, mkPricingModel, BlackScholes.d1X, hlog, XR.xadd, XR.xdivr]

/-- C7 amended: no validation exists anywhere — construction always succeeds,
storing the five arguments unchanged, and the first query never raises an
`InvalidParameter`: it returns a (possibly non-finite) value whenever
`K ≠ 0`, while `K = 0` incidentally raises a `ZeroDivisionError` from the
plain-Python division `S / K` inside `d1`. -/
theorem claim_C7_amended (S K T r sigma : ℝ) :
    mkPricingModel S K T r sigma = ⟨S, K, T, r, sigma⟩ ∧
    (K = 0 → d1Query (mkPricingModel S K T r sigma) = PyResult.zeroDivError) ∧
    (K ≠ 0 → d1Query (mkPricingModel S K T r sigma) =
      PyResult.ok (mkPricingModel S K T r sigma).d1X) := by
  refine ⟨rfl, fun h => ?_, fun h => ?_⟩
  · simp [d1Query, mkPricingModel, h]
  · simp [d1Query, mkPricingModel, h]

/-- Witness for the amended C7 at `spot = -1, K = 100`. -/
theorem claim_C7_amended_w :
    mkPricingModel (-1) 100 1 0.05 0.2 = ⟨-1, 100, 1, 0.05, 0.2⟩ ∧
    d1Query (mkPricingModel (-1) 100 1 0.05 0.2) =
      PyResult.ok (mkPricingModel (-1) 100 1 0.05 0.2).d1X := by
  have h := claim_C7_amended (-1) 100 1 0.05 0.2
  exact ⟨h.1, h.2.2 (by norm_num)⟩

/-- Shifting the argument of the density:
`pdf(x - v) = pdf(x) * exp(x*v - v^2/2)`. -/
lemma normalPdf_shift (x v : ℝ) :
    normalPdf (x - v) = normalPdf x * Real.exp (x * v - v ^ 2 / 2) := by
  unfold normalPdf
  rw [mul_assoc, ← Real.exp_add]
  congr 2
  ring

/-- Derivative in the spot of the call price with the other four parameters
fixed and `T > 0`: the two density terms cancel through the identity
`K*exp(-r*T)*pdf(d2) = S*pdf(d1)`, leaving exactly `Phi(d1)` — the delta. -/
lemma hasDerivAt_priceCall (K T r sigma s : ℝ) (hK : 0 < K) (hT : 0 < T)
    (hsigma : 0 < sigma) (hs : 0 < s) :
    HasDerivAt (fun u => BlackScholes.price_european_call ⟨u, K, T, r, sigma⟩)
      (Phi (BlackScholes.d1 ⟨s, K, T, r, sigma⟩)) s := by
  set v := sigma * Real.sqrt T with hv
  have hv0 : 0 < v := mul_pos hsigma (Real.sqrt_pos.mpr hT)
  set e := (r + 0.5 * sigma ^ 2) * T with he
  set c := K * Real.exp (-r * T) with hc
  set D := ((s / K)⁻¹ * (1 / K)) / v with hD
  have hfun : (fun u => BlackScholes.price_european_call ⟨u, K, T, r, sigma⟩) =
      fun u => u * Phi ((Real.log (u / K) + e) / v) -
        c * Phi ((Real.log (u / K) + e) / v - v) := by
    funext u
    simp only [BlackScholes.price_european_call, BlackScholes.d1,
      BlackScholes.d2, if_neg hT.ne']
  have hd1 : HasDerivAt (fun u => (Real.log (u / K) + e) / v) D s := by
    have h1 : HasDerivAt (fun u : ℝ => u / K) (1 / K) s := by
      simpa using (hasDerivAt_id s).div_const K
    have h2 : HasDerivAt Real.log (s / K)⁻¹ (s / K) :=
      Real.hasDerivAt_log (ne_of_gt (div_pos hs hK))
    have h3 : HasDerivAt (fun u => Real.log (u / K)) ((s / K)⁻¹ * (1 / K)) s := by
      simpa [Function.comp] using HasDerivAt.comp s h2 h1
    exact (h3.add_const e).div_const v
  have hD1 : HasDerivAt (fun u => Phi ((Real.log (u / K) + e) / v))
      (normalPdf ((Real.log (s / K) + e) / v) * D) s := by
    simpa [Function.comp] using HasDerivAt.comp s (hasDerivAt_Phi _) hd1
  have hD2 : HasDerivAt (fun u => Phi ((Real.log (u / K) + e) / v - v))
      (normalPdf ((Real.log (s / K) + e) / v - v) * D) s := by
    simpa [Function.comp] using HasDerivAt.comp s (hasDerivAt_Phi _) (hd1.sub_const v)
  have hprod : HasDerivAt (fun u => u * Phi ((Real.log (u / K) + e) / v))
      (1 * Phi ((Real.log (s / K) + e) / v) +
        s * (normalPdf ((Real.log (s / K) + e) / v) * D)) s :=
    (hasDerivAt_id s).mul hD1
  have hall := hprod.sub (hD2.const_mul c)
  have hident : c * normalPdf ((Real.log (s / K) + e) / v - v) =
      s * normalPdf ((Real.log (s / K) + e) / v) := by
    rw [normalPdf_shift]
    have hd1v : (Real.log (s / K) + e) / v * v = Real.log (s / K) + e :=
      div_mul_cancel₀ _ hv0.ne'
    rw [hd1v]
    have hvsq : v ^ 2 = sigma ^ 2 * T := by
      rw [hv, mul_pow, Real.sq_sqrt hT.le]
    have harg : Real.log (s / K) + e - sigma ^ 2 * T / 2 =
        Real.log (s / K) + r * T := by
      rw [he]
      ring
    rw [hvsq, harg, Real.exp_add, Real.exp_log (div_pos hs hK)]
    have hexp : Real.exp (-r * T) * Real.exp (r * T) = 1 := by
      rw [← Real.exp_add]
      ring_nf
      exact Real.exp_zero
    have hKs : K * (s / K) = s := by
      field_simp
    rw [hc]
    calc K * Real.exp (-r * T) *
        (normalPdf ((Real.log (s / K) + e) / v) * (s / K * Real.exp (r * T))) =
        (Real.exp (-r * T) * Real.exp (r * T)) *
          ((K * (s / K)) * normalPdf ((Real.log (s / K) + e) / v)) := by ring
      _ = s * normalPdf ((Real.log (s / K) + e) / v) := by
        rw [hexp, hKs, one_mul]
  have hcancel : c * (normalPdf ((Real.log (s / K) + e) / v - v) * D) =
      s * (normalPdf ((Real.log (s / K) + e) / v) * D) := by
    calc c * (normalPdf ((Real.log (s / K) + e) / v - v) * D) =
        (c * normalPdf ((Real.log (s / K) + e) / v - v)) * D := by ring
      _ = (s * normalPdf ((Real.log (s / K) + e) / v)) * D := by rw [hident]
      _ = s * (normalPdf ((Real.log (s / K) + e) / v) * D) := by ring
  rw [hfun]
  have hgoal : Phi (BlackScholes.d1 ⟨s, K, T, r, sigma⟩) =
      1 * Phi ((Real.log (s / K) + e) / v) +
        s * (normalPdf ((Real.log (s / K) + e) / v) * D) -
        c * (normalPdf ((Real.log (s / K) + e) / v - v) * D) := by
    rw [hcancel, BlackScholes.d1]
    ring
  rw [hgoal]
  exact hall

/-- The call price is strictly increasing in the spot on `(0, ∞)` when
`K > 0`, `T > 0`, `sigma > 0`: its spot-derivative is `Phi(d1) > 0`. -/
lemma priceCall_strictMonoOn (K T r sigma : ℝ) (hK : 0 < K) (hT : 0 < T)
    (hsigma : 0 < sigma) :
    StrictMonoOn (fun s => BlackScholes.price_european_call ⟨s, K, T, r, sigma⟩)
      (Ioi (0 : ℝ)) := by
  apply strictMonoOn_of_deriv_pos (convex_Ioi 0)
  · intro s hs
    exact ((hasDerivAt_priceCall K T r sigma s hK hT hsigma
      (mem_Ioi.mp hs)).differentiableAt).continuousAt.continuousWithinAt
  · intro s hs
    rw [interior_Ioi] at hs
    rw [(hasDerivAt_priceCall K T r sigma s hK hT hsigma (mem_Ioi.mp hs)).deriv]
    exact (Phi_mem_Ioo _).1

/-- The spot minus the call price is strictly increasing in the spot on
`(0, ∞)`: its derivative is `1 - Phi(d1) > 0`.  Equivalently, the call gains
strictly less than the spot does. -/
lemma spot_sub_priceCall_strictMonoOn (K T r sigma : ℝ) (hK : 0 < K)
    (hT : 0 < T) (hsigma : 0 < sigma) :
    StrictMonoOn
      (fun s => s - BlackScholes.price_european_call ⟨s, K, T, r, sigma⟩)
      (Ioi (0 : ℝ)) := by
  have hd : ∀ s : ℝ, 0 < s →
      HasDerivAt (fun u => u - BlackScholes.price_european_call ⟨u, K, T, r, sigma⟩)
        (1 - Phi (BlackScholes.d1 ⟨s, K, T, r, sigma⟩)) s := by
    intro s hs
    simpa using (hasDerivAt_id s).sub
      (hasDerivAt_priceCall K T r sigma s hK hT hsigma hs)
  apply strictMonoOn_of_deriv_pos (convex_Ioi 0)
  · intro s hs
    exact ((hd s (mem_Ioi.mp hs)).differentiableAt).continuousAt.continuousWithinAt
  · intro s hs
    rw [interior_Ioi] at hs
    rw [(hd s (mem_Ioi.mp hs)).deriv]
    have h := (Phi_mem_Ioo (BlackScholes.d1 ⟨s, K, T, r, sigma⟩)).2
    linarith

/-- C8: for two models that differ only in the spot, with `0 < S1 < S2` and
identical `K > 0`, `r`, `sigma > 0` and `T > 0`, the call price is strictly
larger at `S2` and the put price strictly smaller at `S2`. -/
theorem claim_C8_spot_monotonicity (S1 S2 K T r sigma : ℝ) (h1 : 0 < S1)
    (h12 : S1 < S2) (hK : 0 < K) (hT : 0 < T) (hsigma : 0 < sigma) :
    BlackScholes.price_european_call ⟨S1, K, T, r, sigma⟩ <
      BlackScholes.price_european_call ⟨S2, K, T, r, sigma⟩ ∧
    BlackScholes.price_european_put ⟨S2, K, T, r, sigma⟩ <
      BlackScholes.price_european_put ⟨S1, K, T, r, sigma⟩ := by
  have h2 : 0 < S2 := h1.trans h12
  have hcall := priceCall_strictMonoOn K T r sigma hK hT hsigma
    (mem_Ioi.mpr h1) (mem_Ioi.mpr h2) h12
  have hsub := spot_sub_priceCall_strictMonoOn K T r sigma hK hT hsigma
    (mem_Ioi.mpr h1) (mem_Ioi.mpr h2) h12
  refine ⟨hcall, ?_⟩
  have e1 := price_parity ⟨S1, K, T, r, sigma⟩
  have e2 := price_parity ⟨S2, K, T, r, sigma⟩
  simp only at e1 e2 hcall hsub
  linarith

/-- Witness for C8 at `S1=100, S2=110, K=100, T=1, r=0.05, sigma=0.2`. -/
theorem claim_C8_spot_monotonicity_w :
    BlackScholes.price_european_call ⟨100, 100, 1, 0.05, 0.2⟩ <
      BlackScholes.price_european_call ⟨110, 100, 1, 0.05, 0.2⟩ ∧
    BlackScholes.price_european_put ⟨110, 100, 1, 0.05, 0.2⟩ <
      BlackScholes.price_european_put ⟨100, 100, 1, 0.05, 0.2⟩ :=
  claim_C8_spot_monotonicity 100 110 100 1 0.05 0.2 (by norm_num) (by norm_num)
    (by norm_num) (by norm_num) (by norm_num)
